import Mathlib

/-!
Verification development for the Jazz repository: a shallow embedding of the
retrieval-orchestration core (app/src/core/base.py), the knowledge-base client
(app/src/embeddings/db_client.py) and the fetch tool (app/src/tools/web_tools.py),
together with theorems settling the frozen claims about them.

Python strings are modelled as Lean `String`/`List Char`; machine floats
(retrieval distances) are modelled as `Int` since only their ordering is used;
I/O effects (model streaming, HTTP, the vector store) are passed in as explicit
oracle parameters or state.  All regular expressions of the source are
implemented as executable character-level scanners; deviations from Python `re`
semantics (all confined to non-ASCII or `'_'`-adjacent corner cases) are noted
at each definition.
-/

namespace Jazz

/-! ## Python string primitives -/

/-- Python `\s` / `str.strip` whitespace (ASCII part). -/
def pySpace (c : Char) : Bool :=
  (c == ' ') || (c == '\t') || (c == '\n') || (c == '\r') || (c == '\x0b') || (c == '\x0c')

def pyStripList (cs : List Char) : List Char :=
  ((cs.dropWhile pySpace).reverse.dropWhile pySpace).reverse

/-- Python `str.strip()`. -/
def pyStrip (s : String) : String := String.mk (pyStripList s.data)

def isAsciiUpper (c : Char) : Bool := decide (65 ≤ c.toNat) && decide (c.toNat ≤ 90)

def isAsciiLower (c : Char) : Bool := decide (97 ≤ c.toNat) && decide (c.toNat ≤ 122)

def isAsciiDigit (c : Char) : Bool := decide (48 ≤ c.toNat) && decide (c.toNat ≤ 57)

def isAsciiAlpha (c : Char) : Bool := isAsciiUpper c || isAsciiLower c

def isAlnumChar (c : Char) : Bool := isAsciiAlpha c || isAsciiDigit c

/-- Python `\w` (ASCII part). -/
def isWordChar (c : Char) : Bool := isAlnumChar c || (c == '_')

/-- Python `str.lower()` (ASCII part; inputs of interest are ASCII). -/
def pyLowerChar (c : Char) : Char :=
  if isAsciiUpper c then Char.ofNat (c.toNat + 32) else c

def pyLowerList (cs : List Char) : List Char := cs.map pyLowerChar

def pyLower (s : String) : String := String.mk (pyLowerList s.data)

/-- Maximal runs of characters satisfying `p` (used to model `re.findall` of
    character-class patterns bracketed by `\b`). -/
def runsCore (p : Char → Bool) (cs : List Char) : List Char × List (List Char) :=
  cs.foldr
    (fun c acc =>
      if p c then (c :: acc.1, acc.2)
      else ([], if acc.1.isEmpty then acc.2 else acc.1 :: acc.2))
    ([], [])

def runs (p : Char → Bool) (cs : List Char) : List (List Char) :=
  let r := runsCore p cs
  if r.1.isEmpty then r.2 else r.1 :: r.2

/-- Python `needle in hay` on strings. -/
def containsSub (needle : List Char) : List Char → Bool
  | [] => needle.isEmpty
  | c :: t => needle.isPrefixOf (c :: t) || containsSub needle t

def pyContains (hay sub : String) : Bool := containsSub sub.data hay.data

/-! ## C1 — Stage-2 gating (BaseAgent.start_chat, base.py lines 884-924)

After Stage 1 streams, the code computes `response_len = len(stage1_response.strip())`
and sets `stage1_response = ""` when `not stage1_response or response_len < 100`;
Stage 2 then runs only under `if extra_rag_context and stage1_response:`. -/

/-- The Stage-1 validation step: returns the (possibly cleared) `stage1_response`. -/
def stage1Gate (resp : String) : String :=
  if resp = "" ∨ (pyStrip resp).length < 100 then "" else resp

/-- Predicate: `True` iff the controller enters the Stage-2 branch, given the KB context
    string (`extra_rag_context`) and the accumulated Stage-1 output. -/
def stage2Invoked (kbContext resp : String) : Bool :=
  decide (kbContext ≠ "") && decide (stage1Gate resp ≠ "")

theorem stage1Gate_empty (resp : String)
    (hc : resp = "" ∨ (pyStrip resp).length < 100) : stage1Gate resp = "" := by
  unfold stage1Gate
  exact if_pos hc

theorem stage2Invoked_length (kb resp : String) (h : stage2Invoked kb resp = true) :
    100 ≤ (pyStrip resp).length := by
  by_cases hc : resp = "" ∨ (pyStrip resp).length < 100
  · exfalso
    have hg := stage1Gate_empty resp hc
    simp [stage2Invoked, hg] at h
  · exact Nat.le_of_not_lt (fun hlt => hc (Or.inr hlt))

/-- C1: Stage-2 is invoked only if Stage-1's accumulated output, stripped of
    whitespace, is at least 100 characters long; in particular for a 50-character
    Stage-1 output Stage-2 is not invoked even when KB context is present. -/
theorem C1_stage2_gating :
    (∀ kb resp : String, stage2Invoked kb resp = true → 100 ≤ (pyStrip resp).length) ∧
    (∀ kb : String, stage2Invoked kb (String.mk (List.replicate 50 'a')) = false) := by
  refine ⟨stage2Invoked_length, fun kb => ?_⟩
  have hd : decide (stage1Gate (String.mk (List.replicate 50 'a')) ≠ "") = false := by decide
  unfold stage2Invoked
  rw [hd, Bool.and_false]

/-- Witness for C1 at concrete inputs: a 100-character response passes the gate
    (so the bound is tight) and the 50-character response is rejected. -/
theorem C1_stage2_gating_witness :
    stage2Invoked ("k") (String.mk (List.replicate 100 'b')) = true ∧
    100 ≤ (pyStrip (String.mk (List.replicate 100 'b'))).length ∧
    stage2Invoked ("k") (String.mk (List.replicate 50 'a')) = false :=
  ⟨by decide,
   C1_stage2_gating.1 ("k") (String.mk (List.replicate 100 'b')) (by decide),
   C1_stage2_gating.2 ("k")⟩

/-! ## C9 — fetch (web_tools.py lines 7-49)

`fetch` wraps the whole HTTP-and-parse pipeline in `try/except`: on
`requests.RequestException` it returns `"[ERROR] HTTP error for {url}: {e}"`, on
any other `Exception` it returns `"[ERROR] Failed to parse {url}: {e}"`, and on
success it returns the soup text normalised by `" ".join(text.split())`.
The network/parser is modelled as an oracle outcome; the string contract is
what is verified. -/

inductive FetchOutcome where
  | success (rawText : String)
  | httpError (msg : String)
  | parseFailure (msg : String)

def FetchOutcome.isFailure : FetchOutcome → Bool
  | .success _ => false
  | .httpError _ => true
  | .parseFailure _ => true

/-- Python `" ".join(text.split())`: split on whitespace runs, dropping empties. -/
def normalizeWs (s : String) : String :=
  String.intercalate (" ") ((runs (fun c => !pySpace c) s.data).map String.mk)

/-- Model of `fetch(url)`, with the I/O outcome passed as an oracle.  Totality of this
    function is the model of "never raises". -/
def fetch (url : String) : FetchOutcome → String
  | .success t => normalizeWs t
  | .httpError m => ("[ERROR] HTTP error for ") ++ url ++ (": ") ++ m
  | .parseFailure m => ("[ERROR] Failed to parse ") ++ url ++ (": ") ++ m

/-- C9: `fetch` always returns a string (it is a total function of the oracle
    outcome); on failure outcomes the result starts with `"[ERROR]"`, and on
    success it is exactly the whitespace-normalised extracted page text. -/
theorem C9_fetch_contract :
    (∀ url : String, ∀ o : FetchOutcome, o.isFailure = true →
      ("[ERROR]").data <+: (fetch url o).data) ∧
    (∀ url : String, ∀ t : String, fetch url (.success t) = normalizeWs t) := by
  constructor
  · intro url o ho
    cases o with
    | success t => simp [FetchOutcome.isFailure] at ho
    | httpError m =>
        refine ⟨(" HTTP error for ").data ++ url.data ++ (": ").data ++ m.data, ?_⟩
        show ("[ERROR]").data ++ _ = (("[ERROR] HTTP error for ") ++ url ++ (": ") ++ m).data
        simp [String.data_append]
    | parseFailure m =>
        refine ⟨(" Failed to parse ").data ++ url.data ++ (": ").data ++ m.data, ?_⟩
        show ("[ERROR]").data ++ _ = (("[ERROR] Failed to parse ") ++ url ++ (": ") ++ m).data
        simp [String.data_append]
  · intro url t
    rfl

/-- Witness for C9 at a concrete failure outcome. -/
theorem C9_fetch_contract_witness :
    ("[ERROR]").data <+: (fetch ("http://x") (.httpError ("boom"))).data :=
  C9_fetch_contract.1 ("http://x") (.httpError ("boom")) (by rfl)

/-! ## C8 — context compression (BaseAgent._compress_source_content, base.py 478-497) -/

def compressMarkerWords : List String :=
  [("said"), ("found"), ("research"), ("study"), ("data"), ("percent"), ("showed"),
   ("evidence"), ("according")]

/-- The middle-section selection: split `content[1500:-800]` on `'.'`, keep
    stripped sentences longer than 50 chars, prefer up to 3 of the first 5 that
    mention an evidence marker, else the first long sentence, else `""`. -/
def compressMiddle (content : String) : String :=
  let cs := content.data
  let middleText := if 2300 < cs.length then (cs.take (cs.length - 800)).drop 1500 else []
  let middleSentences :=
    (((String.mk middleText).splitOn (".")).map pyStrip).filter (fun s => 50 < s.length)
  let keySentences :=
    (middleSentences.take 5).filter
      (fun s => compressMarkerWords.any (fun m => pyContains (pyLower s) m))
  if keySentences.isEmpty then
    match middleSentences with
    | s :: _ => s
    | [] => ("")
  else String.intercalate (". ") (keySentences.take 3)

def compressLast (content : String) : List Char :=
  if 800 < content.data.length then content.data.drop (content.data.length - 800) else []

/-- The string `f"{first}\n[... COMPRESSED ...]{middle}\n{last}"` of the over-budget branch. -/
def compressRaw (content : String) : String :=
  String.mk (content.data.take 1500) ++ ("\n") ++ ("[... COMPRESSED ...]") ++
    compressMiddle content ++ ("\n") ++ String.mk (compressLast content)

/-- Python `compressed if len(compressed) <= max_chars else compressed[:max_chars]`. -/
def hardTruncate (s : String) (n : Nat) : String :=
  if s.length ≤ n then s else String.mk (s.data.take n)

/-- BaseAgent._compress_source_content. -/
def compressSourceContent (content : String) (maxChars : Nat) : String :=
  if content.length ≤ maxChars then content
  else hardTruncate (compressRaw content) maxChars

theorem string_length_data (s : String) : s.length = s.data.length := by
  cases s
  rfl

theorem hardTruncate_length_le (s : String) (n : Nat) : (hardTruncate s n).length ≤ n := by
  unfold hardTruncate
  by_cases h : s.length ≤ n
  · rw [if_pos h]; exact h
  · rw [if_neg h]
    show (s.data.take n).length ≤ n
    rw [List.length_take]
    exact Nat.min_le_left n s.data.length

theorem compressRaw_data (content : String) :
    (compressRaw content).data =
      content.data.take 1500 ++ '\n' :: ("[... COMPRESSED ...]").data ++
        ((compressMiddle content).data ++ '\n' :: compressLast content) := by
  unfold compressRaw
  simp [String.data_append]

/-- The literal marker is an infix whenever the budget reaches past the head
    block (1500 chars of head + newline + 20-char marker = 1521). -/
theorem compress_marker_infix (content : String) (maxChars : Nat)
    (h : maxChars < content.length) (h2 : 1521 ≤ maxChars) :
    ("[... COMPRESSED ...]").data <:+: (compressSourceContent content maxChars).data := by
  have hlen : 1500 ≤ content.data.length := by
    have : maxChars < content.data.length := h
    omega
  have htake : (content.data.take 1500).length = 1500 := by
    rw [List.length_take]; omega
  have hheadlen :
      (content.data.take 1500 ++ '\n' :: ("[... COMPRESSED ...]").data).length = 1521 := by
    rw [List.length_append, htake]
    decide
  unfold compressSourceContent
  rw [if_neg (by omega)]
  unfold hardTruncate
  by_cases hfit : (compressRaw content).length ≤ maxChars
  · rw [if_pos hfit, compressRaw_data]
    exact ⟨content.data.take 1500 ++ ['\n'],
      (compressMiddle content).data ++ '\n' :: compressLast content, by simp⟩
  · rw [if_neg hfit]
    show ("[... COMPRESSED ...]").data <:+: (compressRaw content).data.take maxChars
    rw [compressRaw_data, List.take_append_eq_append_take, hheadlen]
    have hall : (content.data.take 1500 ++ '\n' :: ("[... COMPRESSED ...]").data).take maxChars =
        content.data.take 1500 ++ '\n' :: ("[... COMPRESSED ...]").data :=
      List.take_of_length_le (by omega)
    rw [hall]
    exact ⟨content.data.take 1500 ++ ['\n'],
      List.take (maxChars - 1521) ((compressMiddle content).data ++ '\n' :: compressLast content),
      by simp⟩

/-- C8: `compress` returns the content unchanged when within budget; otherwise
    the output length is at most `max_chars`; the `[... COMPRESSED ...]` marker
    survives exactly when the budget keeps the head block (≥1521 chars), and for
    `max_chars = 100` on a 10,000-character input the output is the first 100
    characters (length 100 ≤ 100; the marker, at offset 1501, cannot be retained). -/
theorem C8_compress :
    (∀ (content : String) (maxChars : Nat), content.length ≤ maxChars →
      compressSourceContent content maxChars = content) ∧
    (∀ (content : String) (maxChars : Nat), maxChars < content.length →
      (compressSourceContent content maxChars).length ≤ maxChars) ∧
    (∀ (content : String) (maxChars : Nat), maxChars < content.length → 1521 ≤ maxChars →
      ("[... COMPRESSED ...]").data <:+: (compressSourceContent content maxChars).data) ∧
    (compressSourceContent (String.mk (List.replicate 10000 'a')) 100 =
      String.mk (List.replicate 100 'a')) := by
  refine ⟨?_, ?_, compress_marker_infix, ?_⟩
  · intro content maxChars h
    unfold compressSourceContent
    exact if_pos h
  · intro content maxChars h
    unfold compressSourceContent
    rw [if_neg (by omega)]
    exact hardTruncate_length_le _ _
  · have hdata : (String.mk (List.replicate 10000 'a')).data = List.replicate 10000 'a' := rfl
    have hlen : (String.mk (List.replicate 10000 'a')).length = 10000 := by
      rw [string_length_data, hdata, List.length_replicate]
    unfold compressSourceContent
    rw [if_neg (by rw [hlen]; omega)]
    unfold hardTruncate
    have hraw := compressRaw_data (String.mk (List.replicate 10000 'a'))
    rw [hdata] at hraw
    have h1 : (List.replicate 10000 'a').take 1500 = List.replicate 1500 'a' := by
      rw [List.take_replicate, show ((1500:ℕ) ⊓ 10000) = 1500 from by omega]
    rw [h1] at hraw
    have h2 : 100 < (List.replicate 1500 'a' ++ '\n' :: ("[... COMPRESSED ...]").data).length := by
      rw [List.length_append, List.length_replicate]
      omega
    have hrawlen : 100 < (compressRaw (String.mk (List.replicate 10000 'a'))).length := by
      rw [string_length_data, hraw, List.length_append]
      exact Nat.lt_of_lt_of_le h2 (Nat.le_add_right _ _)
    rw [if_neg (Nat.not_le.mpr hrawlen)]
    have hkey : ∀ (X : List Char), 100 ≤ X.length → ∀ (Y : List Char),
        List.take 100 (X ++ Y) = List.take 100 X := by
      intro X hX Y
      rw [List.take_append_eq_append_take, Nat.sub_eq_zero_of_le hX, List.take_zero,
          List.append_nil]
    have hfin : (compressRaw (String.mk (List.replicate 10000 'a'))).data.take 100 =
        List.replicate 100 'a' := by
      rw [hraw]
      rw [hkey _ (by rw [List.length_append, List.length_replicate]; omega) _]
      rw [hkey _ (by rw [List.length_replicate]; omega) _]
      rw [List.take_replicate, show ((100:ℕ) ⊓ 1500) = 100 from by omega]
    rw [hfin]

/-- Witness for C8 at concrete inputs: a within-budget string is unchanged, an
    over-budget string is truncated to the budget, and a budget ≥1521 keeps the
    marker. -/
theorem C8_compress_witness :
    compressSourceContent ("short text") 100 = ("short text") ∧
    (compressSourceContent (String.mk (List.replicate 200 'c')) 50).length ≤ 50 ∧
    ("[... COMPRESSED ...]").data <:+:
      (compressSourceContent (String.mk (List.replicate 2000 'c')) 1600).data := by
  refine ⟨C8_compress.1 ("short text") 100 (by decide), ?_, ?_⟩
  · refine C8_compress.2.1 (String.mk (List.replicate 200 'c')) 50 ?_
    show 50 < (List.replicate 200 'c').length
    rw [List.length_replicate]
    omega
  · refine C8_compress.2.2.1 (String.mk (List.replicate 2000 'c')) 1600 ?_ (by omega)
    show 1600 < (List.replicate 2000 'c').length
    rw [List.length_replicate]
    omega

/-! ## Regex scanners shared by the query planner and relevance filter

The proper-noun patterns `\b([A-Z][a-zA-Z0-9\-]{2,}(?:\s+[A-Z][a-zA-Z0-9\-]{2,})*)\b`
(query planner) and the same with `(?:...)+` (relevance filter) are implemented
as a greedy scanner over the character list.  The trailing `\b` is checked
without backtracking: a candidate is rejected when two word characters are
adjacent at the match end (of the class characters, only `'_'` can follow the
greedy run); Python would instead backtrack inside the quantifiers, which can
differ only on inputs with `'_'` or `'-'` adjacent to a candidate. -/

/-- The class `[a-zA-Z0-9\-]` of the proper-noun patterns. -/
def pnCls (c : Char) : Bool := isAlnumChar c || (c == '-')

/-- One `[A-Z][a-zA-Z0-9\-]{2,}` segment at the head of `cs` (greedy):
    the maximal class run, accepted when it has ≥3 characters. -/
def pnSeg (cs : List Char) : Option (List Char × List Char) :=
  match cs with
  | [] => none
  | c :: _ =>
    if isAsciiUpper c then
      let run := cs.takeWhile pnCls
      if run.length < 3 then none else some (run, cs.dropWhile pnCls)
    else none

/-- The `(?:\s+[A-Z][a-zA-Z0-9\-]{2,})*` extension loop (greedy). -/
def pnExt : Nat → List Char → List Char × Nat × List Char
  | 0, cs => ([], 0, cs)
  | fuel+1, cs =>
    let ws := cs.takeWhile pySpace
    if ws.isEmpty then ([], 0, cs)
    else
      match pnSeg (cs.dropWhile pySpace) with
      | some (run, rest) =>
        let e := pnExt fuel rest
        (ws ++ run ++ e.1, e.2.1 + 1, e.2.2)
      | none => ([], 0, cs)

/-- A full proper-noun match attempt at the head of `cs` (which the caller
    guarantees to sit at a word boundary and start with `[A-Z]`).  Returns
    (matched text, segment count, remaining input). -/
def pnTry (cs : List Char) : Option (List Char × Nat × List Char) :=
  match pnSeg cs with
  | none => none
  | some (run, rest0) =>
    let e := pnExt rest0.length rest0
    let m := run ++ e.1
    let bad := match m.getLast?, e.2.2.head? with
      | some lc, some nc => isWordChar lc && isWordChar nc
      | _, _ => false
    if bad then none else some (m, e.2.1 + 1, e.2.2)

/-- The `re.findall` scanning loop: try a match at every word-boundary `[A-Z]`
    position, resuming after each match. -/
def pnScanAux : Nat → Bool → List Char → List (List Char × Nat)
  | 0, _, _ => []
  | _+1, _, [] => []
  | fuel+1, prevWord, c :: rest =>
    if !prevWord && isAsciiUpper c then
      match pnTry (c :: rest) with
      | some (m, n, r) =>
        (m, n) :: pnScanAux fuel (match m.getLast? with
          | some lc => isWordChar lc
          | none => false) r
      | none => pnScanAux fuel (isWordChar c) rest
    else pnScanAux fuel (isWordChar c) rest

/-- All proper-noun matches with their segment counts. -/
def pnMatches (s : String) : List (List Char × Nat) :=
  pnScanAux (s.data.length + 1) false s.data

/-- Matches of `re.findall(r'\b([A-Z][a-zA-Z0-9\-]{2,}(?:\s+[A-Z][a-zA-Z0-9\-]{2,})*)\b', s)`. -/
def properNounPhrases (s : String) : List String :=
  (pnMatches s).map (fun p => String.mk p.1)

/-- The multiword variant (`+` instead of `*`) used by `validate_search_results`. -/
def multiwordProperPhrases (s : String) : List String :=
  ((pnMatches s).filter (fun p => 2 ≤ p.2)).map (fun p => String.mk p.1)

/-- First-occurrence deduplication (insertion order), used to model iteration
    over Python sets/`Counter` keys. -/
def dedupFirstAux {α : Type} [DecidableEq α] (seen : List α) : List α → List α
  | [] => []
  | x :: rest =>
    if x ∈ seen then dedupFirstAux seen rest
    else x :: dedupFirstAux (x :: seen) rest

def dedupFirst {α : Type} [DecidableEq α] (l : List α) : List α := dedupFirstAux [] l

/-! ## C10 (and C3's filter) — validate_search_results (base.py 139-174) -/

structure SearchResult where
  title : Option String
  snippet : Option String
  summary : Option String
  link : String
deriving DecidableEq

/-- Python `a or b` on optional strings (`None` and `""` are falsy). -/
def truthyOr (o : Option String) (d : String) : String :=
  match o with
  | some s => if s = "" then d else s
  | none => d

/-- Python `re.fullmatch(r'[a-z]{1,3}', t)`. -/
def isShortLowerAlpha (t : String) : Bool :=
  decide (1 ≤ t.length) && decide (t.length ≤ 3) && t.data.all isAsciiLower

/-- Python `re.findall(r"[A-Za-z0-9\-]{3,}", phrase)`: maximal class runs of length ≥3. -/
def phraseTokens (cs : List Char) : List (List Char) :=
  (runs pnCls cs).filter (fun r => 3 ≤ r.length)

/-- Acceptance predicate of `validate_search_results` for one result.
    `list(kw_set)[:10]` iterates a Python set whose order is unspecified; the
    model uses first-occurrence order of the lowered keywords (the membership
    test used for the proper-phrase overlap is order-independent). -/
def acceptResult (relevanceKeywords : List String) (r : SearchResult) : Bool :=
  let title := pyStrip (truthyOr r.title (""))
  let snippet := pyStrip (truthyOr r.snippet (truthyOr r.summary ("")))
  let combined := pyLower (title ++ (" ") ++ snippet)
  if title = "" || isShortLowerAlpha (pyLower (pyStrip title)) then false
  else
    let kwList := dedupFirst (relevanceKeywords.map pyLower)
    let hasKw := (kwList.take 10).any (fun kw => pyContains combined kw)
    let phrases := multiwordProperPhrases (title ++ (" ") ++ snippet)
    let hasOverlap := phrases.any (fun ph =>
      (phraseTokens ph.data).any
        (fun tok => (relevanceKeywords.map pyLower).contains (String.mk (pyLowerList tok))))
    hasKw || hasOverlap

/-- validate_search_results: order-preserving filter. -/
def validate_search_results (results : List SearchResult)
    (relevanceKeywords : List String) : List SearchResult :=
  results.filter (acceptResult relevanceKeywords)

theorem acceptResult_nil (r : SearchResult) : acceptResult [] r = false := by
  unfold acceptResult
  simp [dedupFirst, dedupFirstAux]

/-- C10: with an empty relevance-keyword list, `validate_search_results` rejects
    every result — there is neither a keyword substring match nor a
    proper-noun-token overlap with the (empty) keyword set. -/
theorem C10_validate_empty_keywords (results : List SearchResult) :
    validate_search_results results [] = [] := by
  unfold validate_search_results
  induction results with
  | nil => rfl
  | cons r rest ih => simp [List.filter_cons, acceptResult_nil, ih]

/-! ## C3 — zero-match fallback in the web-search block (base.py 736-805)

In `start_chat`, when `all_search_results` is non-empty the code filters it;
on zero matches line 748 prints "falling back to KB-only mode" and line 749 sets
`web_search_results = ""`; the `else` branch builds `formatted` from the
surviving results.  Line 797, however, is indented at the level of the
`if not filtered_results:` statement, so it runs in BOTH branches and assigns
`web_search_results = f"...{formatted}..."`.  In the zero-match branch the
Python local `formatted` is whatever an earlier turn of the `while True` loop
left in it (`prevFormatted` below), or unbound on the first such turn, in which
case the NameError is caught by the blanket `except Exception` handler and
`web_search_results` keeps the `""` assigned at line 749. -/

def repStr (n : Nat) (s : String) : String := String.join (List.replicate n s)

def webHeader : String :=
  ("\n") ++ repStr 80 ("=") ++ ("\n") ++
  ("RESEARCH RESULTS FROM WEB (Based on Identified Research Needs)\n") ++
  repStr 80 ("=") ++ ("\n") ++
  ("These results were retrieved based on the research strategy for your question.\n") ++
  ("Extract and synthesize information from these sources.\n\n")

/-- One per-result block of the `formatted` string (base.py 781-795). -/
def resultBlock (i : Nat) (r : SearchResult) (content : String) : String :=
  let compressed := compressSourceContent content 3000
  let sum0 := pyStrip (String.mk ((content.data.take 400).map
    (fun c => if c == '\n' then ' ' else c)))
  let summary := if 400 < content.length then sum0 ++ ("...") else sum0
  ("\n") ++ repStr 70 ("‚îÅ") ++ ("\n") ++
  ("üìÑ RESULT ") ++ toString i ++ (": ") ++ r.title.getD ("Untitled") ++ ("\n") ++
  ("üîó ") ++ r.link ++ ("\n") ++
  repStr 70 ("‚îÅ") ++ ("\n") ++
  ("SUMMARY:\n") ++ summary ++ ("\n\n") ++
  ("CONTENT:\n") ++ compressed ++ ("\n") ++
  repStr 70 ("‚îÅ") ++ ("\n\n")

/-- The fetch-and-screen loop over `filtered_results[:10]` (base.py 758-772):
    drop fetches that raise (`oracle` returns `none`), are ≤100 chars, or whose
    first 50 lowered chars contain "error"; stop once 5 results are kept. -/
def selectValid (oracle : SearchResult → Option String) :
    List SearchResult → List (SearchResult × String) → List (SearchResult × String)
  | [], acc => acc
  | r :: rest, acc =>
    match oracle r with
    | none => selectValid oracle rest acc
    | some content =>
      if content.length ≤ 100 ||
          pyContains (String.mk ((pyLowerList content.data).take 50)) ("error") then
        selectValid oracle rest acc
      else
        let acc' := acc ++ [(r, content)]
        if 5 ≤ acc'.length then acc' else selectValid oracle rest acc'

def blocksFrom (i : Nat) : List (SearchResult × String) → String
  | [] => ("")
  | (r, c) :: rest => resultBlock i r c ++ blocksFrom (i + 1) rest

/-- The second `formatted` assignment (base.py 775-795), which overwrites the
    first identical header built at 751-755. -/
def buildFormatted (oracle : SearchResult → Option String)
    (filtered : List SearchResult) : String :=
  webHeader ++ blocksFrom 1 ((selectValid oracle (filtered.take 10) []).take 5)

/-- The banner `f"\n\n{'...'*70}\n... ADAPTIVE RESEARCH RESULTS\n{'...'*70}\n{formatted}{'...'*70}\n\n"`
    (base.py 797). -/
def webBanner (formatted : String) : String :=
  ("\n\n") ++ repStr 70 ("‚ñà") ++ ("\n") ++ ("üåê ADAPTIVE RESEARCH RESULTS\n") ++
  repStr 70 ("‚ñà") ++ ("\n") ++ formatted ++ repStr 70 ("‚ñà") ++ ("\n\n")

/-- The web-search formatting block of one turn: given the aggregated search
    results, the relevance keywords, the fetch oracle and the previous value of
    the Python local `formatted` (`none` = unbound), returns the final
    `web_search_results` and the new value of `formatted`. -/
def webSearchBlock (allResults : List SearchResult) (keywords : List String)
    (oracle : SearchResult → Option String) (prevFormatted : Option String) :
    String × Option String :=
  if allResults.isEmpty then ((""), prevFormatted)
  else
    let filtered := validate_search_results allResults keywords
    if filtered.isEmpty then
      match prevFormatted with
      | none => ((""), none)
      | some f => (webBanner f, some f)
    else
      let f := buildFormatted oracle filtered
      (webBanner f, some f)

theorem webBanner_ne_empty (f : String) : webBanner f ≠ "" := by
  intro h
  have hd : (webBanner f).data = [] := by rw [h]
  rw [webBanner] at hd
  simp [String.data_append] at hd

/-- On the first turn (no stale `formatted`), zero filter matches do degrade to
    empty web evidence, exactly as the claim states. -/
theorem webSearchBlock_first_turn_clean (allResults : List SearchResult)
    (keywords : List String) (oracle : SearchResult → Option String)
    (hne : allResults ≠ []) (hzero : validate_search_results allResults keywords = []) :
    webSearchBlock allResults keywords oracle none = ((""), none) := by
  unfold webSearchBlock
  rw [if_neg (by simpa [List.isEmpty_iff] using hne)]
  simp only [hzero]
  rfl

/-- C3 is a code bug: on a turn after one that built `formatted`, candidate
    results that are all filtered out still yield a NON-empty
    `web_search_results` — the stale previous-turn `formatted` wrapped in the
    banner — because line 797 executes in both branches.  Concretely: turn 1
    (result "Alpha Team" matching keyword "alpha", fetch of 150 chars) leaves
    `formatted` bound; turn 2's only result has the junk title "xy" so
    filtering yields `[]`, yet the returned web evidence is non-empty. -/
theorem C3_code_bug :
    ((webSearchBlock
        [{ title := some ("Alpha Team"), snippet := some ("alpha news"), summary := none,
           link := ("http://a") }]
        [("alpha")]
        (fun _ => some (String.mk (List.replicate 150 'x'))) none).2).isSome = true ∧
    validate_search_results
        [{ title := some ("xy"), snippet := none, summary := none, link := ("http://b") }]
        [("alpha")] = [] ∧
    (∀ f : String,
      webSearchBlock
        [{ title := some ("xy"), snippet := none, summary := none, link := ("http://b") }]
        [("alpha")]
        (fun _ => some (String.mk (List.replicate 150 'x'))) (some f) =
      (webBanner f, some f) ∧ webBanner f ≠ "") := by
  refine ⟨?_, ?_, ?_⟩
  · rfl
  · decide
  · intro f
    constructor
    · have hzero : validate_search_results
          [{ title := some ("xy"), snippet := none, summary := none, link := ("http://b") }]
          [("alpha")] = [] := by decide
      unfold webSearchBlock
      rw [if_neg (by decide)]
      simp only [hzero]
      rfl
    · exact webBanner_ne_empty f

/-! ## C2 — DataBaseClient.get_query_results (db_client.py 516-542)

Per-collection query results are `(document, metadata, distance)` triples; the
code concatenates them over the indexed collections, sorts ascending by
distance with Python's stable `list.sort`, deduplicates by `metadata.hash`
keeping the first occurrence, and truncates to `n_results`.  Distances are
modelled as `Int` (only their ordering is used); the stable sort is modelled by
Mathlib's (stable) insertion sort; per-collection store answers are oracle
data. -/

structure KBMeta where
  file_path : String
  hash : Option String
  mod_date : String
deriving DecidableEq

structure Candidate where
  doc : String
  meta : KBMeta
  dist : Int
deriving DecidableEq

def distLE (a b : Candidate) : Prop := a.dist ≤ b.dist

instance : DecidableRel distLE := fun a b => inferInstanceAs (Decidable (a.dist ≤ b.dist))

instance : IsTotal Candidate distLE := ⟨fun a b => Int.le_total a.dist b.dist⟩

instance : IsTrans Candidate distLE := ⟨fun _ _ _ h1 h2 => le_trans h1 h2⟩

/-- Python `candidates.sort(key=lambda x: x[2])` — stable ascending sort by distance. -/
def sortCandidates (cands : List Candidate) : List Candidate :=
  List.insertionSort distLE cands

/-- The dedup comprehension: keep a candidate iff its hash is unseen. -/
def dedupByHash : List Candidate → List (Option String) → List Candidate
  | [], _ => []
  | c :: rest, seen =>
    if c.meta.hash ∈ seen then dedupByHash rest seen
    else c :: dedupByHash rest (c.meta.hash :: seen)

/-- Concatenation of the per-collection candidate lists over collections whose
    indexed flag is set. -/
def candidatesOf (colls : List (Bool × List Candidate)) : List Candidate :=
  (colls.filterMap (fun c => if c.1 then some c.2 else none)).flatten

/-- DataBaseClient.get_query_results. -/
def get_query_results (colls : List (Bool × List Candidate)) (n : Nat) :
    List (String × KBMeta) :=
  ((dedupByHash (sortCandidates (candidatesOf colls)) []).map
    (fun c => (c.doc, c.meta))).take n

theorem dedupByHash_sublist (l : List Candidate) (seen : List (Option String)) :
    (dedupByHash l seen).Sublist l := by
  induction l generalizing seen with
  | nil => simp [dedupByHash]
  | cons x rest ih =>
      unfold dedupByHash
      by_cases hx : x.meta.hash ∈ seen
      · rw [if_pos hx]
        exact (ih seen).cons x
      · rw [if_neg hx]
        exact (ih (x.meta.hash :: seen)).cons₂ x

theorem mem_dedupByHash_not_seen (l : List Candidate) (seen : List (Option String))
    (c : Candidate) (hc : c ∈ dedupByHash l seen) : c.meta.hash ∉ seen := by
  induction l generalizing seen with
  | nil => simp [dedupByHash] at hc
  | cons x rest ih =>
      unfold dedupByHash at hc
      by_cases hx : x.meta.hash ∈ seen
      · rw [if_pos hx] at hc
        exact ih seen hc
      · rw [if_neg hx] at hc
        rcases List.mem_cons.mp hc with hceq | hmem
        · rw [hceq]; exact hx
        · have := ih (x.meta.hash :: seen) hmem
          exact fun hs => this (List.mem_cons_of_mem _ hs)

theorem dedupByHash_hash_nodup (l : List Candidate) (seen : List (Option String)) :
    ((dedupByHash l seen).map (fun c => c.meta.hash)).Nodup := by
  induction l generalizing seen with
  | nil => simp [dedupByHash]
  | cons x rest ih =>
      unfold dedupByHash
      by_cases hx : x.meta.hash ∈ seen
      · rw [if_pos hx]; exact ih seen
      · rw [if_neg hx]
        rw [List.map_cons, List.nodup_cons]
        refine ⟨?_, ih (x.meta.hash :: seen)⟩
        intro hmem
        rcases List.mem_map.mp hmem with ⟨c, hc, hch⟩
        have := mem_dedupByHash_not_seen _ _ _ hc
        exact this (by rw [hch]; exact List.mem_cons_self _ _)

theorem dedupByHash_min_dist : ∀ (l : List Candidate) (seen : List (Option String)),
    l.Pairwise distLE → ∀ c ∈ dedupByHash l seen, ∀ c' ∈ l,
    c'.meta.hash = c.meta.hash → c.dist ≤ c'.dist := by
  intro l
  induction l with
  | nil =>
      intro seen _ c hc
      simp [dedupByHash] at hc
  | cons x rest ih =>
      intro seen hs c hc c' hc' hh
      rw [List.pairwise_cons] at hs
      unfold dedupByHash at hc
      by_cases hx : x.meta.hash ∈ seen
      · rw [if_pos hx] at hc
        rcases List.mem_cons.mp hc' with hceq | hmem
        · exfalso
          have hns := mem_dedupByHash_not_seen _ _ _ hc
          rw [hceq] at hh
          rw [← hh] at hns
          exact hns hx
        · exact ih seen hs.2 c hc c' hmem hh
      · rw [if_neg hx] at hc
        rcases List.mem_cons.mp hc with hceq | hcm
        · rcases List.mem_cons.mp hc' with hceq' | hmem'
          · rw [hceq, hceq']
          · rw [hceq]
            exact hs.1 c' hmem'
        · rcases List.mem_cons.mp hc' with hceq' | hmem'
          · exfalso
            have hns := mem_dedupByHash_not_seen _ _ _ hcm
            rw [hceq'] at hh
            rw [← hh] at hns
            exact hns (List.mem_cons_self _ _)
          · exact ih (x.meta.hash :: seen) hs.2 c hcm c' hmem' hh

theorem sortCandidates_pairwise (cands : List Candidate) :
    (sortCandidates cands).Pairwise distLE :=
  List.sorted_insertionSort distLE cands

theorem sortCandidates_perm (cands : List Candidate) :
    (sortCandidates cands).Perm cands :=
  List.perm_insertionSort distLE cands

/-- C2: `get_query_results` returns no two entries with the same
    `metadata.hash`, at most `n_results` entries, and its output is the
    projection of a distance-sorted selection of the merged candidates in which
    each surviving entry has minimal distance among all merged candidates
    sharing its hash (first occurrence in the stable sorted order wins). -/
theorem C2_get_query_results (colls : List (Bool × List Candidate)) (n : Nat) :
    ((get_query_results colls n).map (fun p => p.2.hash)).Nodup ∧
    (get_query_results colls n).length ≤ n ∧
    ∃ l : List Candidate,
      l.Sublist (sortCandidates (candidatesOf colls)) ∧
      get_query_results colls n = l.map (fun c => (c.doc, c.meta)) ∧
      (l.map (fun c => c.dist)).Pairwise (fun a b => a ≤ b) ∧
      ∀ c ∈ l, ∀ c' ∈ candidatesOf colls,
        c'.meta.hash = c.meta.hash → c.dist ≤ c'.dist := by
  have hmap : get_query_results colls n =
      ((dedupByHash (sortCandidates (candidatesOf colls)) []).take n).map
        (fun c => (c.doc, c.meta)) := by
    unfold get_query_results
    rw [List.map_take]
  refine ⟨?_, ?_, (dedupByHash (sortCandidates (candidatesOf colls)) []).take n, ?_, hmap, ?_, ?_⟩
  · rw [hmap, List.map_map]
    have : ((dedupByHash (sortCandidates (candidatesOf colls)) []).take n).Sublist
        (dedupByHash (sortCandidates (candidatesOf colls)) []) := List.take_sublist n _
    exact List.Nodup.sublist (this.map _) (dedupByHash_hash_nodup _ [])
  · unfold get_query_results
    rw [List.length_take]
    exact Nat.min_le_left _ _
  · exact (List.take_sublist n _).trans (dedupByHash_sublist _ [])
  · have hsub : ((dedupByHash (sortCandidates (candidatesOf colls)) []).take n).Sublist
        (sortCandidates (candidatesOf colls)) :=
      (List.take_sublist n _).trans (dedupByHash_sublist _ [])
    have := List.Pairwise.sublist hsub (sortCandidates_pairwise (candidatesOf colls))
    exact (List.pairwise_map).mpr this
  · intro c hc c' hc' hh
    have hcD : c ∈ dedupByHash (sortCandidates (candidatesOf colls)) [] :=
      List.mem_of_mem_take hc
    have hc's : c' ∈ sortCandidates (candidatesOf colls) :=
      ((sortCandidates_perm (candidatesOf colls)).mem_iff).mpr hc'
    exact dedupByHash_min_dist _ [] (sortCandidates_pairwise _) c hcD c' hc's hh

/-- A concrete candidate for the C2 witness. -/
def mkCand (d p : String) (h : Option String) (dist : Int) : Candidate :=
  ⟨d, ⟨p, h, ("m")⟩, dist⟩

/-- Witness for C2 at a concrete store: two collections (one unindexed) with a
    duplicated hash across candidates. -/
theorem C2_get_query_results_witness :
    ((get_query_results
        [(true, [mkCand ("d1") ("p1") (some ("h1")) 5, mkCand ("d2") ("p2") (some ("h1")) 2]),
         (false, [mkCand ("d3") ("p3") (some ("h3")) 0])] 5).map
      (fun p => p.2.hash)).Nodup ∧
    (get_query_results
        [(true, [mkCand ("d1") ("p1") (some ("h1")) 5, mkCand ("d2") ("p2") (some ("h1")) 2]),
         (false, [mkCand ("d3") ("p3") (some ("h3")) 0])] 5).length ≤ 5 :=
  ⟨(C2_get_query_results _ 5).1, (C2_get_query_results _ 5).2.1⟩

/-! ## C6 — DataBaseClient.store_document / already_stored (db_client.py 138-284)

`already_stored` asks the collection for any record with the given `file_path`
(limit 1) and returns whether the metadata list is non-empty; `store_document`
returns immediately when it is, otherwise it scrapes, chunks
(`CHUNK_SIZE = 1000`, `CHUNK_OVERLAP = 100`), embeds in `BATCH_SIZE = 1`
batches, and writes in batches of 50 with ids `f"{hash}_{i}"`.  The store, the
scraper and the embedder are modelled as explicit state/oracles; the effect
trace records the scrape, embed and write operations performed. -/

structure StoredChunk where
  id : String
  doc : String
  meta : KBMeta
  emb : List Int
deriving DecidableEq

inductive IngestAction where
  | scrapeFile (path : String)
  | embedBatch (batch : List String)
  | writeBatch (batch : List String)
deriving DecidableEq

def getCollection (db : List (String × List StoredChunk)) (name : String) :
    Option (List StoredChunk) :=
  match db.find? (fun p => p.1 == name) with
  | some p => some p.2
  | none => none

/-- DataBaseClient.already_stored: `bool(collection.get(where=file_path, limit=1)["metadatas"])`;
    a missing collection (NotFoundError) yields `False`. -/
def already_stored (db : List (String × List StoredChunk))
    (file_path collection_name : String) : Bool :=
  match getCollection db collection_name with
  | none => false
  | some recs => !((recs.filter (fun r => r.meta.file_path == file_path)).take 1).isEmpty

/-- Python `range(0, len, CHUNK_SIZE - CHUNK_OVERLAP)` = `range(0, len, 900)`. -/
def chunkStarts (len : Nat) : List Nat :=
  (List.range ((len + 899) / 900)).map (fun j => j * 900)

/-- The chunk comprehension with its empty-after-strip filter. -/
def chunksOf (content : String) : List String :=
  ((chunkStarts content.length).map
    (fun i => String.mk ((content.data.drop i).take 1000))).filter
    (fun ch => !(pyStrip ch == ""))

/-- Python `range(0, len(chunks), k)` slices of size ≤ `k`. -/
def sliceBatches (k : Nat) (l : List String) : List (List String) :=
  (List.range ((l.length + (k - 1)) / k)).map (fun j => (l.drop (j * k)).take k)

def hashRepr (h : Option String) : String :=
  match h with
  | some s => s
  | none => ("None")

/-- Model of `get_or_create_collection` followed by the batched `collection.add` calls:
    the new records end up appended to the (possibly fresh) collection. -/
def addRecords (db : List (String × List StoredChunk)) (name : String)
    (recs : List StoredChunk) : List (String × List StoredChunk) :=
  match db.find? (fun p => p.1 == name) with
  | some _ => db.map (fun p => if p.1 == name then (p.1, p.2 ++ recs) else p)
  | none => db ++ [(name, recs)]

/-- DataBaseClient.store_document.  Returns the new store state, the new
    indexed-collections map, and the trace of scrape/embed/write effects. -/
def store_document (scrapeFn : String → String × KBMeta)
    (embedFn : List String → List (List Int))
    (db : List (String × List StoredChunk)) (indexed : List (String × Bool))
    (file_path collection_name : String) :
    List (String × List StoredChunk) × List (String × Bool) × List IngestAction :=
  if already_stored db file_path collection_name then (db, indexed, [])
  else
    let resp := scrapeFn file_path
    let content := resp.1
    let metadata := resp.2
    let chunks := chunksOf content
    let indexed' :=
      if (indexed.find? (fun p => p.1 == collection_name)).isSome then indexed
      else indexed ++ [(collection_name, true)]
    let embeddings := ((sliceBatches 1 chunks).map embedFn).flatten
    let ids := (List.range chunks.length).map
      (fun i => hashRepr metadata.hash ++ ("_") ++ toString i)
    let newRecs := (chunks.zip (embeddings.zip ids)).map
      (fun p => StoredChunk.mk p.2.2 p.1 metadata p.2.1)
    let db' := addRecords db collection_name newRecs
    let actions := IngestAction.scrapeFile file_path ::
      ((sliceBatches 1 chunks).map IngestAction.embedBatch ++
       (sliceBatches 50 chunks).map IngestAction.writeBatch)
    (db', indexed', actions)

theorem already_stored_of_present (db : List (String × List StoredChunk))
    (file_path collection_name : String) (recs : List StoredChunk)
    (hcoll : getCollection db collection_name = some recs)
    (r : StoredChunk) (hr : r ∈ recs) (hfp : r.meta.file_path = file_path) :
    already_stored db file_path collection_name = true := by
  unfold already_stored
  rw [hcoll]
  show (!((recs.filter (fun r => r.meta.file_path == file_path)).take 1).isEmpty) = true
  have hmem : r ∈ recs.filter (fun r => r.meta.file_path == file_path) :=
    List.mem_filter.mpr ⟨hr, by simp [hfp]⟩
  match hfl : recs.filter (fun r => r.meta.file_path == file_path) with
  | [] => rw [hfl] at hmem; simp at hmem
  | x :: rest => rw [hfl]; rfl

/-- C6: if a record with the same `(file_path, hash)` as the file's current
    scrape is already present in the collection, `store_document` performs no
    scrape, no embedding and no write, and leaves the store and the
    indexed-collections map unchanged — no second chunk set is created. -/
theorem C6_store_document_idempotent (scrapeFn : String → String × KBMeta)
    (embedFn : List String → List (List Int))
    (db : List (String × List StoredChunk)) (indexed : List (String × Bool))
    (file_path collection_name : String)
    (h : ∃ recs, getCollection db collection_name = some recs ∧
      ∃ r ∈ recs, r.meta.file_path = file_path ∧ r.meta.hash = (scrapeFn file_path).2.hash) :
    store_document scrapeFn embedFn db indexed file_path collection_name =
      (db, indexed, []) := by
  rcases h with ⟨recs, hcoll, r, hr, hfp, _⟩
  unfold store_document
  rw [if_pos (already_stored_of_present db file_path collection_name recs hcoll r hr hfp)]

/-- Witness for C6: a store already holding a chunk of `("f", hash "h1")` in
    collection `"c"`; a second `store_document` call is the identity with an
    empty effect trace. -/
theorem C6_store_document_idempotent_witness :
    store_document (fun _ => (("doc content"), ⟨("f"), some ("h1"), ("m")⟩))
      (fun b => b.map (fun _ => [0]))
      [(("c"), [⟨("h1_0"), ("doc content"), ⟨("f"), some ("h1"), ("m")⟩, [0]⟩])]
      [(("c"), true)] ("f") ("c") =
    ([(("c"), [⟨("h1_0"), ("doc content"), ⟨("f"), some ("h1"), ("m")⟩, [0]⟩])],
      [(("c"), true)], []) :=
  C6_store_document_idempotent _ _ _ _ ("f") ("c")
    ⟨[⟨("h1_0"), ("doc content"), ⟨("f"), some ("h1"), ("m")⟩, [0]⟩], rfl,
     ⟨("h1_0"), ("doc content"), ⟨("f"), some ("h1"), ("m")⟩, [0]⟩,
     List.mem_singleton.mpr rfl, rfl, rfl⟩

/-! ## C7 — author diversity in _format_sources_with_citations (base.py 523-551) -/

/-- First/last occurrence split helpers (Python `split(sep, 1)` / `rsplit(sep, 1)`). -/
def splitFirst (sep : List Char) : List Char → Option (List Char × List Char)
  | [] => if sep.isEmpty then some ([], []) else none
  | c :: t =>
    if sep.isPrefixOf (c :: t) then some ([], (c :: t).drop sep.length)
    else match splitFirst sep t with
      | some (b, a) => some (c :: b, a)
      | none => none

def splitLast (sep cs : List Char) : Option (List Char × List Char) :=
  match splitFirst sep.reverse cs.reverse with
  | some (b, a) => some (a.reverse, b.reverse)
  | none => none

/-- Python `Path(file_path).name` (POSIX separators, as used by the scraper's
    `as_posix()` metadata). -/
def lastComponent (s : String) : String :=
  match splitLast [('/' : Char)] s.data with
  | some (_, a) => String.mk a
  | none => s

/-- Python `Path(...).stem`: the name without its last suffix (a `'.'` strictly inside
    the name, not at position 0 or the end). -/
def pathStem (name : String) : String :=
  match splitLast [('.' : Char)] name.data with
  | some (b, a) =>
    if b.isEmpty || a.isEmpty then name else String.mk b
  | none => name

/-- BaseAgent._extract_source_citation: parse `"Title -- Author"` (rsplit) or
    `"Author - Title"` (split) out of the underscore-cleaned basename. -/
def extract_source_citation (file_path : String) : String × String :=
  let nm := lastComponent file_path
  let stem := pathStem nm
  let basename0 := if stem = "" then nm else stem
  let basename := pyStrip (String.mk (basename0.data.map
    (fun c => if c == '_' then ' ' else c)))
  match splitLast (" -- ").data basename.data with
  | some (t, a) => (pyStrip (String.mk a), pyStrip (String.mk t))
  | none =>
    match splitFirst (" - ").data basename.data with
    | some (a, t) => (pyStrip (String.mk a), pyStrip (String.mk t))
    | none => (("Unknown"), basename)

/-- Python `author.split(',')[0] if ',' in author else author`. -/
def authorKey (author : String) : String :=
  match splitFirst [(',' : Char)] author.data with
  | some (b, _) => String.mk b
  | none => author

structure FormattedSource where
  idx : Nat
  citation : String
  author : String
  title : String
  content : String
  file_path : String
deriving DecidableEq

/-- One iteration of the `_format_sources_with_citations` loop.  The state is
    `(formatted_sources, unique_authors, enumerate index)`; `unique_authors`
    (a Python set) is modelled as an insertion-ordered duplicate-free list. -/
def formatStep (st : List FormattedSource × List String × Nat)
    (item : String × KBMeta) : List FormattedSource × List String × Nat :=
  let fs := st.1
  let ua := st.2.1
  let i := st.2.2
  let fp := item.2.file_path
  let ct := extract_source_citation fp
  let key := authorKey ct.1
  if key ∈ ua ∧ 3 ≤ fs.length then (fs, ua, i + 1)
  else
    let ua' := if key ∈ ua then ua else ua ++ [key]
    let src : FormattedSource :=
      ⟨i, ("[") ++ ct.1 ++ (" - ") ++ ct.2 ++ ("]"), ct.1, ct.2,
        compressSourceContent item.1 2000, fp⟩
    (fs ++ [src], ua', i + 1)

/-- BaseAgent._format_sources_with_citations (the loop part). -/
def formatSourcesWithCitations (query_results : List (String × KBMeta)) :
    List FormattedSource × List String × Nat :=
  query_results.foldl formatStep ([], [], 1)

def fsKeys (fs : List FormattedSource) : List String :=
  fs.map (fun s => authorKey s.author)

/-- Invariant: `unique_authors` holds exactly the author keys of the formatted
    sources. -/
theorem formatStep_inv : ∀ (qrs : List (String × KBMeta))
    (fs : List FormattedSource) (ua : List String) (i : Nat),
    (∀ k, k ∈ ua ↔ k ∈ fsKeys fs) →
    ∀ k, k ∈ (qrs.foldl formatStep (fs, ua, i)).2.1 ↔
      k ∈ fsKeys (qrs.foldl formatStep (fs, ua, i)).1 := by
  intro qrs
  induction qrs with
  | nil => intro fs ua i hinv k; exact hinv k
  | cons item rest ih =>
      intro fs ua i hinv k
      rw [List.foldl_cons]
      unfold formatStep
      by_cases hc : authorKey (extract_source_citation item.2.file_path).1 ∈ ua ∧ 3 ≤ fs.length
      · rw [if_pos hc]
        exact ih fs ua (i + 1) hinv k
      · rw [if_neg hc]
        by_cases hk : authorKey (extract_source_citation item.2.file_path).1 ∈ ua
        · rw [if_pos hk]
          refine ih _ ua (i + 1) ?_ k
          intro k'
          rw [fsKeys, List.map_append, List.mem_append]
          constructor
          · intro h
            exact Or.inl ((hinv k').mp h)
          · intro h
            rcases h with h' | h'
            · exact (hinv k').mpr h'
            · simp only [List.map_cons, List.map_nil, List.mem_singleton] at h'
              rw [h']
              exact hk
        · rw [if_neg hk]
          refine ih _ _ (i + 1) ?_ k
          intro k'
          rw [fsKeys, List.map_append, List.mem_append, List.mem_append]
          constructor
          · intro h
            rcases h with h' | h'
            · exact Or.inl ((hinv k').mp h')
            · refine Or.inr ?_
              simp only [List.map_cons, List.map_nil]
              simpa using h'
          · intro h
            rcases h with h' | h'
            · exact Or.inl ((hinv k').mpr h')
            · refine Or.inr ?_
              simp only [List.map_cons, List.map_nil, List.mem_singleton] at h'
              simpa using h'

theorem dedupFirstAux_length_le {α : Type} [DecidableEq α] (seen : List α) :
    ∀ (l : List α), (dedupFirstAux seen l).length ≤ l.length := by
  intro l
  induction l generalizing seen with
  | nil => simp [dedupFirstAux]
  | cons x rest ih =>
      unfold dedupFirstAux
      by_cases hx : x ∈ seen
      · rw [if_pos hx]
        exact Nat.le_succ_of_le (ih seen)
      · rw [if_neg hx]
        simpa using ih (x :: seen)

/-- C7: once the formatted sources contain at least 3 distinct author keys,
    processing a further chunk whose author key is already represented leaves
    the formatted-source list unchanged (the chunk is skipped). -/
theorem C7_author_diversity (pre : List (String × KBMeta)) (item : String × KBMeta)
    (h3 : 3 ≤ (dedupFirst (fsKeys (formatSourcesWithCitations pre).1)).length)
    (hrep : authorKey (extract_source_citation item.2.file_path).1 ∈
      fsKeys (formatSourcesWithCitations pre).1) :
    (formatSourcesWithCitations (pre ++ [item])).1 = (formatSourcesWithCitations pre).1 := by
  unfold formatSourcesWithCitations at *
  rw [List.foldl_append, List.foldl_cons, List.foldl_nil]
  have hinv := formatStep_inv pre [] [] 1 (by intro k; simp [fsKeys])
  have hkey : authorKey (extract_source_citation item.2.file_path).1 ∈
      (pre.foldl formatStep ([], [], 1)).2.1 :=
    (hinv _).mpr hrep
  have hlen : 3 ≤ (pre.foldl formatStep ([], [], 1)).1.length := by
    have h1 := dedupFirstAux_length_le ([] : List String)
      (fsKeys (pre.foldl formatStep ([], [], 1)).1)
    have h2 : (fsKeys (pre.foldl formatStep ([], [], 1)).1).length =
        (pre.foldl formatStep ([], [], 1)).1.length := List.length_map _ _
    unfold dedupFirst at h3
    omega
  unfold formatStep
  rw [if_pos ⟨hkey, hlen⟩]

/-- Witness for C7: three distinct authors (A, B, C) have been formatted; a
    fourth chunk by author A is skipped. -/
theorem C7_author_diversity_witness :
    (formatSourcesWithCitations
      [(("d1"), ⟨("A - T1"), some ("h1"), ("m")⟩), (("d2"), ⟨("B - T2"), some ("h2"), ("m")⟩),
       (("d3"), ⟨("C - T3"), some ("h3"), ("m")⟩), (("d4"), ⟨("A - T4"), some ("h4"), ("m")⟩)]).1 =
    (formatSourcesWithCitations
      [(("d1"), ⟨("A - T1"), some ("h1"), ("m")⟩), (("d2"), ⟨("B - T2"), some ("h2"), ("m")⟩),
       (("d3"), ⟨("C - T3"), some ("h3"), ("m")⟩)]).1 :=
  C7_author_diversity
    [(("d1"), ⟨("A - T1"), some ("h1"), ("m")⟩), (("d2"), ⟨("B - T2"), some ("h2"), ("m")⟩),
     (("d3"), ⟨("C - T3"), some ("h3"), ("m")⟩)]
    (("d4"), ⟨("A - T4"), some ("h4"), ("m")⟩) (by decide) (by decide)

/-! ## C4 / C5 — generate_search_queries (base.py 36-119)

The full query-generation pipeline: UI-noise cleaning, three candidate passes
(multiword proper nouns, capitalized tokens/acronyms, frequent long lowercase
tokens) each with an early return upon reaching `max_queries`, then a safety
filter and two fallbacks. -/

def STOPWORDS : List String :=
  [("the"), ("a"), ("an"), ("is"), ("are"), ("was"), ("were"), ("in"), ("on"), ("for"),
   ("and"), ("or"), ("of"), ("to"), ("with"), ("by"), ("this"), ("that"), ("these"),
   ("those"), ("how"), ("what"), ("why"), ("when"), ("where"), ("who"), ("which")]

def genericNoise : List String :=
  [("important"), ("always"), ("note"), ("please"), ("thanks"), ("ok"), ("im"),
   String.mk ['i', Char.ofNat 39, 'm'], ("imho"), ("ciao")]

/-- Pattern `^\s*important[:\s]` (and `always`, `note`): optional whitespace, the word
    (case-insensitively), then one `':'` or whitespace character. -/
def noiseWordColon (w : List Char) (cs : List Char) : Bool :=
  let low := pyLowerList (cs.dropWhile pySpace)
  w.isPrefixOf low &&
    (match low.drop w.length with
     | c :: _ => (c == ':') || pySpace c
     | [] => false)

/-- Pattern `^[\\/A-Za-z]:\\`. -/
def noiseDriveStart (cs : List Char) : Bool :=
  match cs with
  | a :: b :: c :: _ => ((a == '\\') || (a == '/') || isAsciiAlpha a) && (b == ':') && (c == '\\')
  | _ => false

/-- Pattern `^\s*<pre><rep>+` for the banner patterns (matched literally; Python's
    IGNORECASE could additionally case-fold the non-ASCII pattern characters). -/
def noisePlusPat (pre : List Char) (rep : Char) (cs : List Char) : Bool :=
  let rest := (cs.dropWhile pySpace).drop pre.length
  pre.isPrefixOf (cs.dropWhile pySpace) &&
    (match rest with
     | c :: _ => c == rep
     | [] => false)

def noiseExact (pat : List Char) (cs : List Char) : Bool :=
  pat.isPrefixOf (cs.dropWhile pySpace)

/-- Predicate for `_UI_NOISE_PATTERNS` of base.py lines 41-44. -/
def isNoiseLine (cs : List Char) : Bool :=
  noiseWordColon ("important").data cs || noiseWordColon ("always").data cs ||
  noiseWordColon ("note").data cs || noiseDriveStart cs ||
  noisePlusPat ("‚ñ").data 'à' cs || noiseExact ("‚ï≠").data cs ||
  noiseExact ("‚ï∞").data cs || noisePlusPat ("‚Ä").data 'î' cs ||
  noisePlusPat ("‚î").data 'Å' cs

/-- Python `re.search(r'[A-Za-z]:\\', ln)`. -/
def hasDriveAnywhere : List Char → Bool
  | a :: b :: c :: rest =>
    (isAsciiAlpha a && (b == ':') && (c == '\\')) || hasDriveAnywhere (b :: c :: rest)
  | _ => false

/-- Python `len(ln.split())`: number of whitespace-separated words. -/
def wordCount (cs : List Char) : Nat := (runs (fun c => !pySpace c) cs).length

/-- Python `str.splitlines()`, modelled on `'\n'` only (the inputs of interest contain
    no `'\r'`; a trailing empty line is dropped by the blank-line filter either
    way). -/
def splitOnNl (cs : List Char) : List (List Char) :=
  cs.foldr
    (fun c acc =>
      if c == '\n' then [] :: acc
      else match acc with
        | h :: t => (c :: h) :: t
        | [] => [[c]])
    [[]]

/-- _clean_user_input_for_queries (base.py 48-65), including the final strip. -/
def cleanUserInput (raw : String) : String :=
  let kept := (splitOnNl raw.data).filterMap (fun lineCs =>
    let ln := pyStrip (String.mk lineCs)
    if ln = "" then none
    else if isNoiseLine ln.data then none
    else if decide (wordCount ln.data ≤ 2) && genericNoise.contains (pyLower ln) then none
    else if hasDriveAnywhere ln.data then none
    else some ln)
  pyStrip (String.intercalate (" ") kept)

/-- Python `ui = _clean_user_input_for_queries(user_input).strip(); if not ui: ui = user_input.strip()`. -/
def uiOf (userInput : String) : String :=
  let ui0 := cleanUserInput userInput
  if ui0 = "" then pyStrip userInput else ui0

/-- Pattern `\b([A-Z]{2,}|[A-Z][a-z]{3,})\b` on one maximal word run (greedy matching
    with the surrounding word boundaries forces the alternatives to cover the
    entire run). -/
def capsRunMatch (r : List Char) : Bool :=
  (decide (2 ≤ r.length) && r.all isAsciiUpper) ||
  (match r with
   | c :: t => isAsciiUpper c && decide (3 ≤ t.length) && t.all isAsciiLower
   | [] => false)

/-- Python `caps = re.findall(r'\b([A-Z]{2,}|[A-Z][a-z]{3,})\b', ui)`. -/
def capsTokens (s : String) : List String :=
  ((runs isWordChar s.data).filter capsRunMatch).map String.mk

def lowerDigitChar (c : Char) : Bool := isAsciiLower c || isAsciiDigit c

/-- Python `re.findall(r'\b([a-z0-9]{4,})\b', ui.lower())`. -/
def rawLowerTokens (s : String) : List String :=
  ((runs isWordChar (pyLowerList s.data)).filter
    (fun r => r.all lowerDigitChar && decide (4 ≤ r.length))).map String.mk

/-- Python `tokens = [t for t in tokens if t not in _STOPWORDS]`. -/
def lowerTokens (s : String) : List String :=
  (rawLowerTokens s).filter (fun t => !(STOPWORDS.contains t))

def countGE (a b : String × Nat) : Prop := b.2 ≤ a.2

instance : DecidableRel countGE := fun a b => inferInstanceAs (Decidable (b.2 ≤ a.2))

/-- Python `Counter(tokens).most_common()`: keys in first-occurrence order with their
    counts, stably sorted by descending count. -/
def mostCommonKeys (toks : List String) : List String :=
  (List.insertionSort countGE ((dedupFirst toks).map (fun t => (t, toks.count t)))).map
    (fun p => p.1)

/-- Python `str.isupper()` (ASCII: at least one cased character, none lowercase). -/
def pyIsUpper (s : String) : Bool :=
  s.data.any isAsciiAlpha && !(s.data.any isAsciiLower)

/-- Python `len(pn) > 4 or pn.isupper()`. -/
def pnPred (pn : String) (_ : List String) : Bool :=
  decide (4 < pn.length) || pyIsUpper pn

/-- Python `c_lower not in tokens and c_lower not in [q.lower() for q in queries]`. -/
def capsPred (toks : List String) (c : String) (qs : List String) : Bool :=
  !(toks.contains (pyLower c)) && !((qs.map pyLower).contains (pyLower c))

/-- Python `t not in [q.lower() for q in queries]`. -/
def freqPred (t : String) (qs : List String) : Bool :=
  !((qs.map pyLower).contains t)

/-- One candidate pass: append each item satisfying the predicate; return early
    (flag `true`) once `len(queries) >= max_queries` after an append. -/
def loopAppend (P : String → List String → Bool) (maxQ : Nat) :
    List String → List String → List String × Bool
  | [], qs => (qs, false)
  | x :: rest, qs =>
    if P x qs then
      if maxQ ≤ (qs ++ [x]).length then (qs ++ [x], true)
      else loopAppend P maxQ rest (qs ++ [x])
    else loopAppend P maxQ rest qs

/-- Python `len(re.findall(r'[A-Za-z0-9]{2,}', q)) >= 1`. -/
def hasAlnumRun2 : List Char → Bool
  | [] => false
  | [_] => false
  | a :: b :: rest => (isAlnumChar a && isAlnumChar b) || hasAlnumRun2 (b :: rest)

/-- The safety filter of line 111. -/
def safetyPred (q : String) : Bool := decide (3 ≤ q.length) && hasAlnumRun2 q.data

/-- Python `re.findall(r'\b[A-Za-z0-9]{3,}\b', ui)`. -/
def fallbackWords (s : String) : List String :=
  ((runs isWordChar s.data).filter
    (fun r => r.all isAlnumChar && decide (3 ≤ r.length))).map String.mk

/-- Lines 110-119: the safety filter, the word fallback and the raw-input
    fallback. -/
def gsqFinal (ui : String) (maxQ : Nat) (qs : List String) : List String :=
  if (qs.filter safetyPred).isEmpty then
    if ((fallbackWords ui).filter (fun w => !(STOPWORDS.contains (pyLower w)))).isEmpty then
      [String.mk (ui.data.take 100)]
    else ((fallbackWords ui).filter (fun w => !(STOPWORDS.contains (pyLower w)))).take maxQ
  else (qs.filter safetyPred).take maxQ

/-- generate_search_queries (base.py 68-119). -/
def generate_search_queries (userInput : String) (maxQueries : Nat) : List String :=
  match loopAppend pnPred maxQueries (properNounPhrases (uiOf userInput)) [] with
  | (qs, true) => qs
  | (qs, false) =>
    match loopAppend (capsPred (lowerTokens (uiOf userInput))) maxQueries
        (capsTokens (uiOf userInput)) qs with
    | (qs, true) => qs
    | (qs, false) =>
      match loopAppend freqPred maxQueries (mostCommonKeys (lowerTokens (uiOf userInput))) qs with
      | (qs, true) => qs
      | (qs, false) => gsqFinal (uiOf userInput) maxQueries qs

/-! ### Support lemmas for the query-planner claims -/

theorem string_mk_length (r : List Char) : (String.mk r).length = r.length := rfl

theorem pnSeg_run_length (cs run rest : List Char) (h : pnSeg cs = some (run, rest)) :
    3 ≤ run.length := by
  cases cs with
  | nil => simp [pnSeg] at h
  | cons c t =>
      simp only [pnSeg] at h
      by_cases hu : isAsciiUpper c = true
      · rw [if_pos hu] at h
        by_cases hl : ((c :: t).takeWhile pnCls).length < 3
        · rw [if_pos hl] at h
          exact absurd h (by simp)
        · rw [if_neg hl] at h
          simp only [Option.some.injEq, Prod.mk.injEq] at h
          rw [← h.1]
          omega
      · rw [if_neg hu] at h
        exact absurd h (by simp)

theorem pnTry_match_length (cs m : List Char) (n : Nat) (r : List Char)
    (h : pnTry cs = some (m, n, r)) : 3 ≤ m.length := by
  unfold pnTry at h
  split at h
  · exact absurd h (by simp)
  · rename_i run rest0 heq
    dsimp only at h
    split at h
    · exact absurd h (by simp)
    · simp only [Option.some.injEq, Prod.mk.injEq] at h
      have hrun := pnSeg_run_length cs run rest0 heq
      rw [← h.1, List.length_append]
      omega

theorem pnScanAux_match_length : ∀ (fuel : Nat) (prevW : Bool) (cs : List Char)
    (p : List Char × Nat), p ∈ pnScanAux fuel prevW cs → 3 ≤ p.1.length := by
  intro fuel
  induction fuel with
  | zero =>
      intro prevW cs p h
      simp [pnScanAux] at h
  | succ f ih =>
      intro prevW cs p h
      cases cs with
      | nil => simp [pnScanAux] at h
      | cons c rest =>
          unfold pnScanAux at h
          split at h
          · split at h
            · rename_i m n r heq
              rcases List.mem_cons.mp h with hp | hp
              · rw [hp]
                exact pnTry_match_length _ _ _ _ heq
              · exact ih _ _ _ hp
            · exact ih _ _ _ h
          · exact ih _ _ _ h

theorem mem_properNounPhrases_length (s : String) (p : String)
    (h : p ∈ properNounPhrases s) : 3 ≤ p.length := by
  unfold properNounPhrases at h
  rcases List.mem_map.mp h with ⟨q, hq, hqe⟩
  rw [← hqe, string_mk_length]
  exact pnScanAux_match_length _ _ _ _ hq

theorem mem_capsTokens_length (s : String) (c : String) (h : c ∈ capsTokens s) :
    2 ≤ c.length := by
  unfold capsTokens at h
  rcases List.mem_map.mp h with ⟨r, hr, hre⟩
  have hm := (List.mem_filter.mp hr).2
  rw [← hre, string_mk_length]
  unfold capsRunMatch at hm
  rw [Bool.or_eq_true] at hm
  rcases hm with h1 | h1
  · rw [Bool.and_eq_true] at h1
    exact of_decide_eq_true h1.1
  · match r, h1 with
    | c0 :: t, h1 =>
        rw [Bool.and_eq_true, Bool.and_eq_true] at h1
        have h3 := h1.1.2
        have h4 := of_decide_eq_true h3
        simp only [List.length_cons]
        omega

theorem lowerDigit_not_upper (x : Char) (h : lowerDigitChar x = true) :
    isAsciiUpper x = false := by
  unfold lowerDigitChar isAsciiLower isAsciiDigit at h
  unfold isAsciiUpper
  rw [Bool.or_eq_true] at h
  rcases h with h1 | h1
  · rw [Bool.and_eq_true] at h1
    have ha' := of_decide_eq_true h1.1
    rw [decide_eq_false (by omega : ¬(x.toNat ≤ 90)), Bool.and_false]
  · rw [Bool.and_eq_true] at h1
    have hb' := of_decide_eq_true h1.2
    rw [decide_eq_false (by omega : ¬(65 ≤ x.toNat)), Bool.false_and]

theorem mem_lowerTokens_spec (s : String) (t : String) (h : t ∈ lowerTokens s) :
    4 ≤ t.length ∧ pyLower t = t := by
  unfold lowerTokens at h
  have h1 := List.mem_of_mem_filter h
  unfold rawLowerTokens at h1
  rcases List.mem_map.mp h1 with ⟨r, hr, hre⟩
  have hm := (List.mem_filter.mp hr).2
  rw [Bool.and_eq_true] at hm
  rcases hm with ⟨hall, hlen⟩
  constructor
  · rw [← hre, string_mk_length]
    exact of_decide_eq_true hlen
  · rw [← hre]
    show String.mk (List.map pyLowerChar r) = String.mk r
    congr 1
    have hid : ∀ x ∈ r, pyLowerChar x = x := by
      intro x hx
      have hld := List.all_eq_true.mp hall x hx
      unfold pyLowerChar
      rw [lowerDigit_not_upper x hld]
      simp
    calc List.map pyLowerChar r = List.map id r := List.map_congr_left hid
      _ = r := List.map_id r

theorem mem_dedupFirstAux {α : Type} [DecidableEq α] :
    ∀ (l seen : List α) (x : α), x ∈ dedupFirstAux seen l → x ∈ l := by
  intro l
  induction l with
  | nil => intro seen x h; simp [dedupFirstAux] at h
  | cons y rest ih =>
      intro seen x h
      unfold dedupFirstAux at h
      by_cases hy : y ∈ seen
      · rw [if_pos hy] at h
        exact List.mem_cons_of_mem _ (ih seen x h)
      · rw [if_neg hy] at h
        rcases List.mem_cons.mp h with h' | h'
        · rw [h']; exact List.mem_cons_self _ _
        · exact List.mem_cons_of_mem _ (ih (y :: seen) x h')

theorem mem_mostCommonKeys (toks : List String) (t : String) (h : t ∈ mostCommonKeys toks) :
    t ∈ toks := by
  unfold mostCommonKeys at h
  rcases List.mem_map.mp h with ⟨p, hp, hpe⟩
  have hp' : p ∈ (dedupFirst toks).map (fun t => (t, toks.count t)) :=
    (List.perm_insertionSort countGE _).mem_iff.mp hp
  rcases List.mem_map.mp hp' with ⟨t', ht', hte⟩
  have hfst : p.1 = t' := by rw [← hte]
  rw [← hpe, hfst]
  exact mem_dedupFirstAux _ _ _ ht'

theorem mem_fallbackWords_length (s : String) (w : String) (h : w ∈ fallbackWords s) :
    3 ≤ w.length := by
  unfold fallbackWords at h
  rcases List.mem_map.mp h with ⟨r, hr, hre⟩
  have hm := (List.mem_filter.mp hr).2
  rw [← hre, string_mk_length]
  rw [Bool.and_eq_true] at hm
  exact of_decide_eq_true hm.2

theorem loopAppend_len (P : String → List String → Bool) (maxQ : Nat) :
    ∀ (items qs : List String), qs.length < maxQ →
      (loopAppend P maxQ items qs).1.length ≤ maxQ ∧
      ((loopAppend P maxQ items qs).2 = false →
        (loopAppend P maxQ items qs).1.length < maxQ) := by
  intro items
  induction items with
  | nil =>
      intro qs h
      simp only [loopAppend]
      exact ⟨Nat.le_of_lt h, fun _ => h⟩
  | cons x rest ih =>
      intro qs h
      unfold loopAppend
      by_cases hp : P x qs = true
      · rw [if_pos hp]
        by_cases hm : maxQ ≤ (qs ++ [x]).length
        · rw [if_pos hm]
          refine ⟨?_, fun hfalse => absurd hfalse (by simp)⟩
          simp only [List.length_append, List.length_cons, List.length_nil]
          omega
        · rw [if_neg hm]
          exact ih (qs ++ [x]) (Nat.not_le.mp hm)
      · rw [if_neg hp]
        exact ih qs h

theorem loopAppend_master (P : String → List String → Bool) (maxQ : Nat) :
    ∀ (items qs : List String),
      ∃ s, (loopAppend P maxQ items qs).1 = qs ++ s ∧
        (∀ x ∈ s, x ∈ items) ∧
        ((∀ x ∈ items, ∀ qs' : List String, P x qs' = true → pyLower x ∉ qs'.map pyLower) →
          (∀ x ∈ s, pyLower x ∉ qs.map pyLower) ∧ (s.map pyLower).Nodup) := by
  intro items
  induction items with
  | nil =>
      intro qs
      exact ⟨[], by simp [loopAppend], by simp, fun _ => ⟨by simp, by simp⟩⟩
  | cons x rest ih =>
      intro qs
      unfold loopAppend
      by_cases hp : P x qs = true
      · rw [if_pos hp]
        by_cases hm : maxQ ≤ (qs ++ [x]).length
        · rw [if_pos hm]
          refine ⟨[x], rfl, ?_, ?_⟩
          · intro y hy
            rw [List.mem_singleton.mp hy]
            exact List.mem_cons_self _ _
          · intro hP
            refine ⟨?_, by simp⟩
            intro y hy
            rw [List.mem_singleton.mp hy]
            exact hP x (List.mem_cons_self _ _) qs hp
        · rw [if_neg hm]
          rcases ih (qs ++ [x]) with ⟨s', hs1, hs2, hs3⟩
          refine ⟨x :: s', by rw [hs1]; simp, ?_, ?_⟩
          · intro y hy
            rcases List.mem_cons.mp hy with h | h
            · rw [h]; exact List.mem_cons_self _ _
            · exact List.mem_cons_of_mem _ (hs2 y h)
          · intro hP
            have hPrest : ∀ z ∈ rest, ∀ qs' : List String, P z qs' = true →
                pyLower z ∉ qs'.map pyLower :=
              fun z hz => hP z (List.mem_cons_of_mem _ hz)
            rcases hs3 hPrest with ⟨hci, hnd⟩
            constructor
            · intro y hy
              rcases List.mem_cons.mp hy with h | h
              · rw [h]
                exact hP x (List.mem_cons_self _ _) qs hp
              · intro hmem
                exact hci y h (by rw [List.map_append]; exact List.mem_append_left _ hmem)
            · rw [List.map_cons, List.nodup_cons]
              refine ⟨?_, hnd⟩
              intro hmem
              rcases List.mem_map.mp hmem with ⟨z, hz, hze⟩
              have hz' := hci z hz
              rw [List.map_append] at hz'
              exact hz' (List.mem_append_right _ (by simp [hze]))
      · rw [if_neg hp]
        rcases ih qs with ⟨s', hs1, hs2, hs3⟩
        exact ⟨s', hs1, fun y hy => List.mem_cons_of_mem _ (hs2 y hy),
          fun hP => hs3 (fun z hz => hP z (List.mem_cons_of_mem _ hz))⟩

theorem contains_false_not_mem (l : List String) (a : String)
    (h : l.contains a = false) : a ∉ l := by
  simpa using h

theorem capsPred_hP (toks : List String) :
    ∀ x (qs' : List String), capsPred toks x qs' = true → pyLower x ∉ qs'.map pyLower := by
  intro x qs' hx
  unfold capsPred at hx
  rw [Bool.and_eq_true, Bool.not_eq_true', Bool.not_eq_true'] at hx
  exact contains_false_not_mem _ _ hx.2

theorem freqPred_hP (s : String) :
    ∀ x ∈ mostCommonKeys (lowerTokens s), ∀ (qs' : List String),
      freqPred x qs' = true → pyLower x ∉ qs'.map pyLower := by
  intro x hx qs' hq
  unfold freqPred at hq
  rw [Bool.not_eq_true'] at hq
  have hself := (mem_lowerTokens_spec s x (mem_mostCommonKeys _ _ hx)).2
  rw [hself]
  exact contains_false_not_mem _ _ hq

/-- Structural description of `generate_search_queries`: either the result is a
    proper-noun prefix followed by a case-insensitively duplicate-free suffix of
    capitalized/frequency candidates disjoint from the prefix, or it comes from
    the word fallback, or it is the raw-input fallback. -/
theorem gsq_decomp (input : String) (maxQ : Nat) :
    (∃ p r, generate_search_queries input maxQ = p ++ r ∧
      (∀ x ∈ p, x ∈ properNounPhrases (uiOf input)) ∧
      (∀ x ∈ r, x ∈ capsTokens (uiOf input) ∨
        x ∈ mostCommonKeys (lowerTokens (uiOf input))) ∧
      (∀ x ∈ r, pyLower x ∉ p.map pyLower) ∧
      (r.map pyLower).Nodup) ∨
    ((generate_search_queries input maxQ).Sublist
        ((fallbackWords (uiOf input)).filter (fun w => !(STOPWORDS.contains (pyLower w)))) ∧
      ∀ x ∈ generate_search_queries input maxQ, x ∈ fallbackWords (uiOf input)) ∨
    generate_search_queries input maxQ = [String.mk ((uiOf input).data.take 100)] := by
  rcases h1 : loopAppend pnPred maxQ (properNounPhrases (uiOf input)) [] with ⟨qs1, b1⟩
  rcases loopAppend_master pnPred maxQ (properNounPhrases (uiOf input)) [] with ⟨s1, e1, f1, _⟩
  rw [h1] at e1
  have e1' : qs1 = s1 := by simpa using e1
  have hq1 : ∀ x ∈ qs1, x ∈ properNounPhrases (uiOf input) := by
    intro x hx
    exact f1 x (by rwa [e1'] at hx)
  cases b1 with
  | true =>
      have hg : generate_search_queries input maxQ = qs1 := by
        unfold generate_search_queries
        simp only [h1]
      exact Or.inl ⟨qs1, [], by rw [hg, List.append_nil], hq1, by simp, by simp, by simp⟩
  | false =>
      rcases h2 : loopAppend (capsPred (lowerTokens (uiOf input))) maxQ
          (capsTokens (uiOf input)) qs1 with ⟨qs2, b2⟩
      rcases loopAppend_master (capsPred (lowerTokens (uiOf input))) maxQ
          (capsTokens (uiOf input)) qs1 with ⟨s2, e2, f2, g2⟩
      rw [h2] at e2
      have e2' : qs2 = qs1 ++ s2 := by simpa using e2
      rcases g2 (fun x _ => capsPred_hP (lowerTokens (uiOf input)) x) with ⟨ci2, nd2⟩
      cases b2 with
      | true =>
          have hg : generate_search_queries input maxQ = qs2 := by
            unfold generate_search_queries
            simp only [h1, h2]
          refine Or.inl ⟨qs1, s2, by rw [hg, e2'], hq1, ?_, ?_, nd2⟩
          · intro x hx
            exact Or.inl (f2 x hx)
          · intro x hx
            exact ci2 x hx
      | false =>
          rcases h3 : loopAppend freqPred maxQ
              (mostCommonKeys (lowerTokens (uiOf input))) qs2 with ⟨qs3, b3⟩
          rcases loopAppend_master freqPred maxQ
              (mostCommonKeys (lowerTokens (uiOf input))) qs2 with ⟨s3, e3, f3, g3⟩
          rw [h3] at e3
          have e3' : qs3 = qs1 ++ (s2 ++ s3) := by
            have : qs3 = qs2 ++ s3 := by simpa using e3
            rw [this, e2', List.append_assoc]
          rcases g3 (fun x hx => freqPred_hP (uiOf input) x hx) with ⟨ci3, nd3⟩
          have hr23 : ∀ x ∈ s2 ++ s3, pyLower x ∉ qs1.map pyLower := by
            intro x hx
            rcases List.mem_append.mp hx with h | h
            · exact ci2 x h
            · intro hmem
              refine ci3 x h ?_
              rw [e2', List.map_append]
              exact List.mem_append_left _ hmem
          have hnd23 : ((s2 ++ s3).map pyLower).Nodup := by
            rw [List.map_append]
            refine List.Nodup.append nd2 nd3 ?_
            intro a ha2 ha3
            rcases List.mem_map.mp ha3 with ⟨z, hz, hze⟩
            refine ci3 z hz ?_
            rw [e2', List.map_append, hze]
            exact List.mem_append_right _ ha2
          have hprov23 : ∀ x ∈ s2 ++ s3, x ∈ capsTokens (uiOf input) ∨
              x ∈ mostCommonKeys (lowerTokens (uiOf input)) := by
            intro x hx
            rcases List.mem_append.mp hx with h | h
            · exact Or.inl (f2 x h)
            · exact Or.inr (f3 x h)
          cases b3 with
          | true =>
              have hg : generate_search_queries input maxQ = qs3 := by
                unfold generate_search_queries
                simp only [h1, h2, h3]
              exact Or.inl ⟨qs1, s2 ++ s3, by rw [hg, e3'], hq1, hprov23, hr23, hnd23⟩
          | false =>
              have hg : generate_search_queries input maxQ =
                  gsqFinal (uiOf input) maxQ qs3 := by
                unfold generate_search_queries
                simp only [h1, h2, h3]
              by_cases hfe : (qs3.filter safetyPred).isEmpty
              · by_cases hwe : (((fallbackWords (uiOf input)).filter
                    (fun w => !(STOPWORDS.contains (pyLower w))))).isEmpty
                · refine Or.inr (Or.inr ?_)
                  rw [hg]
                  unfold gsqFinal
                  rw [if_pos hfe, if_pos hwe]
                · refine Or.inr (Or.inl ?_)
                  have hg2 : generate_search_queries input maxQ =
                      ((fallbackWords (uiOf input)).filter
                        (fun w => !(STOPWORDS.contains (pyLower w)))).take maxQ := by
                    rw [hg]
                    unfold gsqFinal
                    rw [if_pos hfe, if_neg hwe]
                  constructor
                  · rw [hg2]
                    exact List.take_sublist _ _
                  · intro x hx
                    rw [hg2] at hx
                    exact List.mem_of_mem_filter (List.mem_of_mem_take hx)
              · have hg2 : generate_search_queries input maxQ =
                    (qs3.filter safetyPred).take maxQ := by
                  rw [hg]
                  unfold gsqFinal
                  rw [if_neg hfe]
                rw [e3', List.filter_append, List.take_append_eq_append_take] at hg2
                refine Or.inl ⟨(qs1.filter safetyPred).take maxQ,
                  ((s2 ++ s3).filter safetyPred).take
                    (maxQ - (qs1.filter safetyPred).length), hg2, ?_, ?_, ?_, ?_⟩
                · intro x hx
                  exact hq1 x (List.mem_of_mem_filter (List.mem_of_mem_take hx))
                · intro x hx
                  exact hprov23 x (List.mem_of_mem_filter (List.mem_of_mem_take hx))
                · intro x hx hmem
                  rcases List.mem_map.mp hmem with ⟨y, hy, hye⟩
                  refine hr23 x (List.mem_of_mem_filter (List.mem_of_mem_take hx)) ?_
                  rw [← hye]
                  exact List.mem_map_of_mem pyLower
                    (List.mem_of_mem_filter (List.mem_of_mem_take hy))
                · refine List.Nodup.sublist ?_ hnd23
                  exact List.Sublist.map pyLower
                    ((List.take_sublist _ _).trans (List.filter_sublist _))

/-- The returned list never exceeds `max_queries` (for `max_queries ≥ 1`). -/
theorem gsq_len (input : String) (maxQ : Nat) (hmax : 1 ≤ maxQ) :
    (generate_search_queries input maxQ).length ≤ maxQ := by
  rcases h1 : loopAppend pnPred maxQ (properNounPhrases (uiOf input)) [] with ⟨qs1, b1⟩
  have l1 := loopAppend_len pnPred maxQ (properNounPhrases (uiOf input)) []
    (by simpa using hmax)
  rw [h1] at l1
  cases b1 with
  | true =>
      have hg : generate_search_queries input maxQ = qs1 := by
        unfold generate_search_queries
        simp only [h1]
      rw [hg]
      exact l1.1
  | false =>
      have hlt1 : qs1.length < maxQ := l1.2 rfl
      rcases h2 : loopAppend (capsPred (lowerTokens (uiOf input))) maxQ
          (capsTokens (uiOf input)) qs1 with ⟨qs2, b2⟩
      have l2 := loopAppend_len (capsPred (lowerTokens (uiOf input))) maxQ
        (capsTokens (uiOf input)) qs1 hlt1
      rw [h2] at l2
      cases b2 with
      | true =>
          have hg : generate_search_queries input maxQ = qs2 := by
            unfold generate_search_queries
            simp only [h1, h2]
          rw [hg]
          exact l2.1
      | false =>
          have hlt2 : qs2.length < maxQ := l2.2 rfl
          rcases h3 : loopAppend freqPred maxQ
              (mostCommonKeys (lowerTokens (uiOf input))) qs2 with ⟨qs3, b3⟩
          have l3 := loopAppend_len freqPred maxQ
            (mostCommonKeys (lowerTokens (uiOf input))) qs2 hlt2
          rw [h3] at l3
          cases b3 with
          | true =>
              have hg : generate_search_queries input maxQ = qs3 := by
                unfold generate_search_queries
                simp only [h1, h2, h3]
              rw [hg]
              exact l3.1
          | false =>
              have hg : generate_search_queries input maxQ =
                  gsqFinal (uiOf input) maxQ qs3 := by
                unfold generate_search_queries
                simp only [h1, h2, h3]
              rw [hg]
              unfold gsqFinal
              by_cases hfe : (qs3.filter safetyPred).isEmpty
              · rw [if_pos hfe]
                by_cases hwe : (((fallbackWords (uiOf input)).filter
                    (fun w => !(STOPWORDS.contains (pyLower w))))).isEmpty
                · rw [if_pos hwe]
                  simpa using hmax
                · rw [if_neg hwe, List.length_take]
                  exact Nat.min_le_left _ _
              · rw [if_neg hfe, List.length_take]
                exact Nat.min_le_left _ _

/-- C4 counterexample: the claim "never returns a query shorter than 3
    characters or composed solely of stopwords" is false.  `"Is"` reaches the
    raw-input fallback and is returned verbatim: 2 characters, and a stopword;
    `"AB"` with `max_queries = 1` early-returns a 2-character acronym, skipping
    the safety filter; `"What"` survives every pass and filter although it is
    solely a stopword; and with `max_queries = 0` the early-return check fires
    only after an append, so a 1-element list exceeds the bound. -/
theorem C4_counterexample :
    generate_search_queries ("Is") 4 = [("Is")] ∧
    ("Is").length = 2 ∧ pyLower ("Is") ∈ STOPWORDS ∧
    generate_search_queries ("AB") 1 = [("AB")] ∧ ("AB").length = 2 ∧
    generate_search_queries ("What") 4 = [("What")] ∧ pyLower ("What") ∈ STOPWORDS ∧
    generate_search_queries ("hello") 0 = [("hello")] := by
  refine ⟨by decide, by decide, by decide, by decide, by decide, by decide, by decide, by decide⟩

/-- C4 (amended): for `max_queries ≥ 1` the returned list has length at most
    `max_queries`, and every returned query has at least 2 characters unless the
    list is the single-element raw-input fallback (the cleaned input truncated
    to 100 characters), which can be shorter or a bare stopword.  (No pass
    filters capitalized stopwords, so stopword-only queries can be returned.) -/
theorem C4_query_bounds (input : String) (maxQ : Nat) (hmax : 1 ≤ maxQ) :
    (generate_search_queries input maxQ).length ≤ maxQ ∧
    ∀ q ∈ generate_search_queries input maxQ,
      2 ≤ q.length ∨
      generate_search_queries input maxQ = [String.mk ((uiOf input).data.take 100)] := by
  refine ⟨gsq_len input maxQ hmax, ?_⟩
  intro q hq
  rcases gsq_decomp input maxQ with ⟨p, r, he, hp, hr, _, _⟩ | ⟨_, hmem⟩ | he
  · left
    rw [he] at hq
    rcases List.mem_append.mp hq with h | h
    · have := mem_properNounPhrases_length _ _ (hp q h)
      omega
    · rcases hr q h with h' | h'
      · exact mem_capsTokens_length _ _ h'
      · have := (mem_lowerTokens_spec _ _ (mem_mostCommonKeys _ _ h')).1
        omega
  · left
    have := mem_fallbackWords_length _ _ (hmem q hq)
    omega
  · right
    exact he

/-- Witness for the amended C4 at a concrete input. -/
theorem C4_query_bounds_witness :
    (generate_search_queries ("Alice met Bob") 4).length ≤ 4 ∧
    ∀ q ∈ generate_search_queries ("Alice met Bob") 4,
      2 ≤ q.length ∨
      generate_search_queries ("Alice met Bob") 4 =
        [String.mk ((uiOf ("Alice met Bob")).data.take 100)] :=
  C4_query_bounds ("Alice met Bob") 4 (by omega)

/-- C5 counterexample: the claim "no duplicate queries under case-insensitive
    comparison" is false — the proper-noun pass appends matches without any
    deduplication, and the word fallback performs none either. -/
theorem C5_counterexample :
    generate_search_queries ("Alice met Alice") 4 = [("Alice"), ("Alice")] ∧
    ¬ ((generate_search_queries ("Alice met Alice") 4).map pyLower).Nodup ∧
    generate_search_queries ("cat cat cat") 4 = [("cat"), ("cat"), ("cat")] := by
  refine ⟨by decide, by decide, by decide⟩

/-- C5 (amended): the capitalized-token and frequent-token passes never add a
    query that case-insensitively duplicates an earlier one, so any returned
    list splits into a (possibly duplicated) proper-noun prefix and a
    case-insensitively duplicate-free suffix disjoint from that prefix — unless
    the list comes from the word fallback (which does not deduplicate) or is
    the raw-input fallback. -/
theorem C5_caseins_dedup (input : String) (maxQ : Nat) :
    (∃ p r, generate_search_queries input maxQ = p ++ r ∧
      (∀ x ∈ p, x ∈ properNounPhrases (uiOf input)) ∧
      (r.map pyLower).Nodup ∧ (∀ x ∈ r, pyLower x ∉ p.map pyLower)) ∨
    (generate_search_queries input maxQ).Sublist
      ((fallbackWords (uiOf input)).filter (fun w => !(STOPWORDS.contains (pyLower w)))) ∨
    generate_search_queries input maxQ = [String.mk ((uiOf input).data.take 100)] := by
  rcases gsq_decomp input maxQ with ⟨p, r, he, hp, _, hci, hnd⟩ | ⟨hsub, _⟩ | he
  · exact Or.inl ⟨p, r, he, hp, hnd, hci⟩
  · exact Or.inr (Or.inl hsub)
  · exact Or.inr (Or.inr he)

/-- Witness for the amended C5 at a concrete input. -/
theorem C5_caseins_dedup_witness :
    (∃ p r, generate_search_queries ("Alice met Bob") 4 = p ++ r ∧
      (∀ x ∈ p, x ∈ properNounPhrases (uiOf ("Alice met Bob"))) ∧
      (r.map pyLower).Nodup ∧ (∀ x ∈ r, pyLower x ∉ p.map pyLower)) ∨
    (generate_search_queries ("Alice met Bob") 4).Sublist
      ((fallbackWords (uiOf ("Alice met Bob"))).filter
        (fun w => !(STOPWORDS.contains (pyLower w)))) ∨
    generate_search_queries ("Alice met Bob") 4 =
      [String.mk ((uiOf ("Alice met Bob")).data.take 100)] :=
  C5_caseins_dedup ("Alice met Bob") 4

end Jazz
